import Mathlib

/-!
Verification of the Telegram pairing subsystem of Aether-Claw
(shallow embedding of `src/telegram_setup.py`).

The embedding models:
* `wait_for_start_command` (handshake phase, lines 71-111),
* `wait_for_pairing_code` (challenge verify phase, lines 114-157),
* `generate_pairing_code` (lines 36-38, characterized by its output shape),
* the credential-persistence block of `setup_telegram` (lines 264-292).

Network interaction is modelled by feeding each polling loop a list of
`Round`s: the value of the elapsed wall clock at the loop's `while` check
together with the outcome of that round's `getUpdates` call (an exception,
an `ok: false` response, or a batch of updates).  Each loop returns its
Python return value plus an observable trace: the final value of the local
`offset` variable, the requests actually issued (elapsed time and `offset`
query parameter), the value of `offset` after each round, and the list of
updates iterated over.
-/

/-- Whitespace characters removed by Python `str.strip()` (ASCII range). -/
def isPySpace (c : Char) : Bool :=
  c = ' ' || c = '\t' || c = '\n' || c = '\r' || c = '\x0b' || c = '\x0c'

/-- Python `str.strip()`: drop leading and trailing whitespace. -/
def pyStrip (s : String) : String :=
  ⟨((s.data.dropWhile isPySpace).reverse.dropWhile isPySpace).reverse⟩

/-- Python `str.startswith(p)`. -/
def pyStartsWith (s p : String) : Bool :=
  p.data.isPrefixOf s.data

/-- The `message` object of a Telegram update, as consumed by the source:
`chat.id` (an integer), the optional `text`, and the sender's optional
`from.first_name`. -/
structure Message where
  chat_id : Int
  text : Option String
  first_name : Option String
deriving DecidableEq

/-- One element of `getUpdates`'s `result` array: an `update_id` and an
optional `message` (non-message updates have none). -/
structure Update where
  update_id : Int
  message : Option Message
deriving DecidableEq

/-- Outcome of one `getUpdates` round as seen by the polling loop:
an exception during fetch/parse (`fail`), a parsed response whose `ok`
field is falsy (`notOk`), or an `ok` response carrying a batch. -/
inductive PollResult where
  | fail : PollResult
  | notOk : PollResult
  | ok : List Update → PollResult
deriving DecidableEq

/-- One iteration of a polling loop: the elapsed wall-clock seconds at the
`while` check, and what the `getUpdates` call would yield if made. -/
structure Round where
  elapsed : Nat
  resp : PollResult
deriving DecidableEq

/-- Result of the inner `for update in updates` loop of
`wait_for_start_command` (lines 93-105): the local `offset` when the loop
ends or returns, the returned chat id (if any), and the updates iterated. -/
structure StartScanOut where
  offset : Int
  found : Option String
  procd : List Update
deriving DecidableEq

/-- Inner loop of `wait_for_start_command`: for each update set
`offset = update_id + 1`; if the update has a message whose stripped text
equals "/start", return `str(chat.id)`. -/
def startScan : Int → List Update → StartScanOut
  | off, [] => ⟨off, none, []⟩
  | _, u :: rest =>
    let off := u.update_id + 1
    match u.message with
    | some msg =>
      if pyStrip (msg.text.getD "") = "/start" then
        ⟨off, some (toString msg.chat_id), [u]⟩
      else
        let t := startScan off rest
        ⟨t.offset, t.found, u :: t.procd⟩
    | none =>
      let t := startScan off rest
      ⟨t.offset, t.found, u :: t.procd⟩

/-- Observable outcome of one polling loop: the Python return value,
the final value of the local `offset`, the issued requests (elapsed time
and `offset` query parameter), the value of `offset` after each issued
request, and all updates iterated over, in order. -/
structure PhaseOut (α : Type) where
  result : α
  offset : Int
  polled : List (Nat × Option Int)
  offsets : List Int
  procd : List Update
deriving DecidableEq

/-- Outer loop of `wait_for_start_command` (lines 82-111).  While the
elapsed clock is below `timeout`: build the URL (the `offset` parameter is
included only when `offset` is non-zero, line 85-86), fetch, and on an
`ok` response scan the batch; exceptions and non-`ok` responses leave
`offset` unchanged.  Return the chat id on a match, `none` on deadline. -/
def startLoop (timeout : Nat) : Int → List Round → PhaseOut (Option String)
  | off, [] => ⟨none, off, [], [], []⟩
  | off, r :: rest =>
    if r.elapsed < timeout then
      let param : Option Int := if off = 0 then none else some off
      match r.resp with
      | .fail =>
        let t := startLoop timeout off rest
        ⟨t.result, t.offset, (r.elapsed, param) :: t.polled, off :: t.offsets, t.procd⟩
      | .notOk =>
        let t := startLoop timeout off rest
        ⟨t.result, t.offset, (r.elapsed, param) :: t.polled, off :: t.offsets, t.procd⟩
      | .ok us =>
        let s := startScan off us
        match s.found with
        | some cid =>
          ⟨some cid, s.offset, [(r.elapsed, param)], [s.offset], s.procd⟩
        | none =>
          let t := startLoop timeout s.offset rest
          ⟨t.result, t.offset, (r.elapsed, param) :: t.polled, s.offset :: t.offsets,
            s.procd ++ t.procd⟩
    else ⟨none, off, [], [], []⟩

/-- `wait_for_start_command(token, timeout)` (lines 71-111): the local
`offset` starts at 0 and the loop runs until a match or the deadline. -/
def wait_for_start_command (rounds : List Round) (timeout : Nat) :
    PhaseOut (Option String) :=
  startLoop timeout 0 rounds

/-- Result of the inner `for update in updates` loop of
`wait_for_pairing_code` (lines 136-151). -/
structure PairScanOut where
  offset : Int
  found : Bool
  procd : List Update
deriving DecidableEq

/-- Inner loop of `wait_for_pairing_code`: for each update set
`offset = update_id + 1`; for a message from the paired chat, return
`True` when the stripped text equals the pairing code.  All other cases
(including the source's explicit `continue` for command-prefixed texts,
line 149-151) proceed to the next update. -/
def pairScan (chat_id code : String) : Int → List Update → PairScanOut
  | off, [] => ⟨off, false, []⟩
  | _, u :: rest =>
    let off := u.update_id + 1
    match u.message with
    | some msg =>
      if toString msg.chat_id = chat_id then
        if pyStrip (msg.text.getD "") = code then
          ⟨off, true, [u]⟩
        else
          let t := pairScan chat_id code off rest
          ⟨t.offset, t.found, u :: t.procd⟩
      else
        let t := pairScan chat_id code off rest
        ⟨t.offset, t.found, u :: t.procd⟩
    | none =>
      let t := pairScan chat_id code off rest
      ⟨t.offset, t.found, u :: t.procd⟩

/-- Outer loop of `wait_for_pairing_code` (lines 127-157).  Unlike the
handshake loop, the URL always carries the `offset` parameter
(line 129). -/
def pairLoop (chat_id code : String) (timeout : Nat) :
    Int → List Round → PhaseOut Bool
  | off, [] => ⟨false, off, [], [], []⟩
  | off, r :: rest =>
    if r.elapsed < timeout then
      match r.resp with
      | .fail =>
        let t := pairLoop chat_id code timeout off rest
        ⟨t.result, t.offset, (r.elapsed, some off) :: t.polled, off :: t.offsets, t.procd⟩
      | .notOk =>
        let t := pairLoop chat_id code timeout off rest
        ⟨t.result, t.offset, (r.elapsed, some off) :: t.polled, off :: t.offsets, t.procd⟩
      | .ok us =>
        let s := pairScan chat_id code off us
        if s.found then
          ⟨true, s.offset, [(r.elapsed, some off)], [s.offset], s.procd⟩
        else
          let t := pairLoop chat_id code timeout s.offset rest
          ⟨t.result, t.offset, (r.elapsed, some off) :: t.polled, s.offset :: t.offsets,
            s.procd ++ t.procd⟩
    else ⟨false, off, [], [], []⟩

/-- `wait_for_pairing_code(token, chat_id, pairing_code, timeout)`
(lines 114-157): the local `offset` starts at 0. -/
def wait_for_pairing_code (rounds : List Round) (chat_id code : String)
    (timeout : Nat) : PhaseOut Bool :=
  pairLoop chat_id code timeout 0 rounds

/-- Shape of every value returned by `generate_pairing_code` (lines 36-38):
six characters, each a decimal digit (the random draw is abstracted to its
codomain). -/
def isCodeShape (s : String) : Bool :=
  s.length = 6 && s.data.all (fun c => c.isDigit)

/-- The pairing part of `setup_telegram` (lines 222-247): run the
handshake with a 300s deadline; on success run the challenge verify phase,
bound to the returned chat id, with a 300s deadline.  Both phases are
returned with their traces; `none` for the second component means the
handshake timed out. -/
def pairingAttempt (code : String) (rounds1 rounds2 : List Round) :
    PhaseOut (Option String) × Option (PhaseOut Bool) :=
  let h := wait_for_start_command rounds1 300
  match h.result with
  | some cid => (h, some (wait_for_pairing_code rounds2 cid code 300))
  | none => (h, none)

/-- Python `file.readlines()` on a character list: split after every
newline character; a final chunk without a newline is still a line. -/
def readlinesAux : List Char → List Char → List String
  | [], [] => []
  | [], acc => [⟨acc.reverse⟩]
  | c :: cs, acc =>
    if c = '\n' then ⟨(c :: acc).reverse⟩ :: readlinesAux cs []
    else readlinesAux cs (c :: acc)

/-- Python `file.readlines()` (line 268). -/
def readlines (s : String) : List String :=
  readlinesAux s.data []

/-- Python `file.writelines(lines)` (line 292): concatenation. -/
def writelines : List String → String
  | [] => ""
  | l :: ls => l ++ writelines ls

/-- The key prefix for the token line. -/
def tokenKey : String := "TELEGRAM_BOT_TOKEN="

/-- The key prefix for the chat-id line. -/
def chatKey : String := "TELEGRAM_CHAT_ID="

/-- The `for line in env_lines` loop of `setup_telegram` (lines 275-283):
rebuild the line list, replacing any line whose prefix is a recognized key
with the canonical key line, and record whether each key was seen. -/
def mergeEnvLines (token chat_id : String) : List String → List String × Bool × Bool
  | [] => ([], false, false)
  | l :: rest =>
    let t := mergeEnvLines token chat_id rest
    if pyStartsWith l tokenKey then
      ((tokenKey ++ token ++ "\n") :: t.1, true, t.2.2)
    else if pyStartsWith l chatKey then
      ((chatKey ++ chat_id ++ "\n") :: t.1, t.2.1, true)
    else (l :: t.1, t.2.1, t.2.2)

/-- Lines written back by `setup_telegram` (lines 270-288): the rebuilt
list, with a newline-prefixed token line appended when no token line was
found, and a chat-id line appended when no chat-id line was found. -/
def saveCredLines (lines : List String) (token chat_id : String) : List String :=
  let t := mergeEnvLines token chat_id lines
  let nl := if t.2.1 then t.1 else t.1 ++ ["\n" ++ tokenKey ++ token ++ "\n"]
  if t.2.2 then nl else nl ++ [chatKey ++ chat_id ++ "\n"]

/-- The whole persistence step (lines 264-292): read the existing content
as lines, merge the binding in, and write the lines back. -/
def saveCredentials (content token chat_id : String) : String :=
  writelines (saveCredLines (readlines content) token chat_id)

/-- The batch carried by a round, empty unless the response was `ok`. -/
def roundEvents (r : Round) : List Update :=
  match r.resp with
  | .ok us => us
  | _ => []

/-- An update that satisfies the challenge in the source's verify phase:
it carries a message from the bound chat whose stripped text equals the
issued code (lines 139-148). -/
def MatchesPair (chat_id code : String) (u : Update) : Prop :=
  ∃ m, u.message = some m ∧ toString m.chat_id = chat_id ∧
    pyStrip (m.text.getD "") = code

/-- An update that triggers the handshake phase and makes it return `cid`:
it carries a message whose stripped text equals "/start", and `cid` is the
string form of its chat id (lines 96-105). -/
def StartReturns (cid : String) (u : Update) : Prop :=
  ∃ m, u.message = some m ∧ pyStrip (m.text.getD "") = "/start" ∧
    cid = toString m.chat_id

/-- Server-contract well-formedness of one batch relative to the cursor
value at which it was requested: update ids strictly ascending and none
below the cursor (the remote service's ordering guarantee). -/
def ascFrom : Int → List Update → Bool
  | _, [] => true
  | off, u :: rest => decide (off ≤ u.update_id) && ascFrom (u.update_id + 1) rest

/-- Cursor value after iterating over a whole batch: last update id plus
one, or unchanged for an empty batch. -/
def batchEnd : Int → List Update → Int
  | off, [] => off
  | _, u :: rest => batchEnd (u.update_id + 1) rest

/-- Well-formedness of a round sequence under the service contract,
threading the cursor value a polling loop holds when issuing each
request. -/
def roundsValid : Int → List Round → Bool
  | _, [] => true
  | off, r :: rest =>
    match r.resp with
    | .ok us => ascFrom off us && roundsValid (batchEnd off us) rest
    | _ => roundsValid off rest

/-- The spec's per-line update rule: a line whose prefix is a recognized
key is replaced by the canonical key line; every other line is kept
byte-for-byte. -/
def specReplaceLine (token chat_id l : String) : String :=
  if pyStartsWith l tokenKey then tokenKey ++ token ++ "\n"
  else if pyStartsWith l chatKey then chatKey ++ chat_id ++ "\n"
  else l

/-- A proper text line: its characters are a newline-free body followed by
one final newline. -/
def ProperLine (l : String) : Prop :=
  ∃ b, l.data = b ++ ['\n'] ∧ '\n' ∉ b

/-- An update that the challenge verify phase treats as noise: no message,
a message from a foreign chat, or a command-marker text. -/
def eventNoise (chat_id : String) (u : Update) : Bool :=
  match u.message with
  | some m => !(toString m.chat_id == chat_id) || pyStartsWith (m.text.getD "") "/"
  | none => true

/-- An update whose stripped message text is the initiation signal. -/
def isStartEvent (u : Update) : Bool :=
  match u.message with
  | some m => pyStrip (m.text.getD "") == "/start"
  | none => false

/-- An update that would satisfy the challenge for the given binding. -/
def isPairEvent (chat_id code : String) (u : Update) : Bool :=
  match u.message with
  | some m => (toString m.chat_id == chat_id) && (pyStrip (m.text.getD "") == code)
  | none => false

theorem mem_dropWhile_of_neg {p : Char → Bool} {a : Char} :
    ∀ {l : List Char}, a ∈ l → p a = false → a ∈ List.dropWhile p l := by
  intro l
  induction l with
  | nil => intro h _; cases h
  | cons c cs ih =>
    intro hmem hpa
    rw [List.dropWhile_cons]
    by_cases hc : p c = true
    · rw [if_pos hc]
      rcases List.mem_cons.mp hmem with h | h
      · subst h; rw [hpa] at hc; cases hc
      · exact ih h hpa
    · rw [if_neg hc]
      exact hmem

theorem mem_pyStrip_of_mem {a : Char} {s : String} (hmem : a ∈ s.data)
    (hsp : isPySpace a = false) : a ∈ (pyStrip s).data := by
  unfold pyStrip
  apply List.mem_reverse.mpr
  apply mem_dropWhile_of_neg _ hsp
  apply List.mem_reverse.mpr
  exact mem_dropWhile_of_neg hmem hsp

theorem slash_mem_of_startsWith {s : String} (h : pyStartsWith s "/" = true) :
    '/' ∈ (pyStrip s).data := by
  have hm : '/' ∈ s.data := by
    unfold pyStartsWith at h
    cases hd : s.data with
    | nil => rw [hd] at h; simp [List.isPrefixOf] at h
    | cons c cs =>
      rw [hd] at h
      have : ('/' == c && List.isPrefixOf [] cs) = true := h
      have hc : '/' = c := by
        cases hcc : ('/' == c) with
        | false => rw [hcc] at this; simp at this
        | true => exact eq_of_beq hcc
      rw [hc]
      exact List.mem_cons_self _ _
  exact mem_pyStrip_of_mem hm (by rfl)

theorem code_has_no_slash {code : String} (h : isCodeShape code = true) :
    '/' ∉ code.data := by
  intro hmem
  unfold isCodeShape at h
  have hall := (Bool.and_eq_true _ _).mp h |>.2
  have := (List.all_eq_true.mp hall) '/' hmem
  simp [Char.isDigit] at this

theorem strip_ne_code_of_slash {s code : String}
    (hs : pyStartsWith s "/" = true) (hc : isCodeShape code = true) :
    pyStrip s ≠ code := by
  intro heq
  have hmem := slash_mem_of_startsWith hs
  rw [heq] at hmem
  exact code_has_no_slash hc hmem

theorem pairScan_found_ex (c k : String) :
    ∀ (us : List Update) (off : Int),
      (pairScan c k off us).found = true → ∃ u ∈ us, MatchesPair c k u := by
  intro us
  induction us with
  | nil => intro off h; simp [pairScan] at h
  | cons u rest ih =>
    intro off h
    cases hm : u.message with
    | some msg =>
      by_cases hc : toString msg.chat_id = c
      · by_cases ht : pyStrip (msg.text.getD "") = k
        · exact ⟨u, List.mem_cons_self _ _, msg, hm, hc, ht⟩
        · simp only [pairScan, hm, if_pos hc, if_neg ht] at h
          obtain ⟨v, hv, hmv⟩ := ih _ h
          exact ⟨v, List.mem_cons_of_mem _ hv, hmv⟩
      · simp only [pairScan, hm, if_neg hc] at h
        obtain ⟨v, hv, hmv⟩ := ih _ h
        exact ⟨v, List.mem_cons_of_mem _ hv, hmv⟩
    | none =>
      simp only [pairScan, hm] at h
      obtain ⟨v, hv, hmv⟩ := ih _ h
      exact ⟨v, List.mem_cons_of_mem _ hv, hmv⟩

theorem startScan_found_ex :
    ∀ (us : List Update) (off : Int) (cid : String),
      (startScan off us).found = some cid → ∃ u ∈ us, StartReturns cid u := by
  intro us
  induction us with
  | nil => intro off cid h; simp [startScan] at h
  | cons u rest ih =>
    intro off cid h
    cases hm : u.message with
    | some msg =>
      by_cases ht : pyStrip (msg.text.getD "") = "/start"
      · simp only [startScan, hm, if_pos ht] at h
        exact ⟨u, List.mem_cons_self _ _, msg, hm, ht, (Option.some_inj.mp h).symm⟩
      · simp only [startScan, hm, if_neg ht] at h
        obtain ⟨v, hv, hmv⟩ := ih _ _ h
        exact ⟨v, List.mem_cons_of_mem _ hv, hmv⟩
    | none =>
      simp only [startScan, hm] at h
      obtain ⟨v, hv, hmv⟩ := ih _ _ h
      exact ⟨v, List.mem_cons_of_mem _ hv, hmv⟩

theorem pairLoop_true_ex (c k : String) (T : Nat) :
    ∀ (rounds : List Round) (off : Int),
      (pairLoop c k T off rounds).result = true →
      ∃ r ∈ rounds, r.elapsed < T ∧ ∃ u ∈ roundEvents r, MatchesPair c k u := by
  intro rounds
  induction rounds with
  | nil => intro off h; simp [pairLoop] at h
  | cons r rest ih =>
    intro off h
    by_cases he : r.elapsed < T
    · cases hr : r.resp with
      | fail =>
        simp only [pairLoop, if_pos he, hr] at h
        obtain ⟨r', hr', hrest⟩ := ih _ h
        exact ⟨r', List.mem_cons_of_mem _ hr', hrest⟩
      | notOk =>
        simp only [pairLoop, if_pos he, hr] at h
        obtain ⟨r', hr', hrest⟩ := ih _ h
        exact ⟨r', List.mem_cons_of_mem _ hr', hrest⟩
      | ok us =>
        by_cases hf : (pairScan c k off us).found = true
        · obtain ⟨u, hu, hmu⟩ := pairScan_found_ex c k us off hf
          exact ⟨r, List.mem_cons_self _ _, he, u, by rw [roundEvents, hr]; exact hu, hmu⟩
        · simp only [pairLoop, if_pos he, hr, Bool.not_eq_true] at h
          rw [if_neg hf] at h
          obtain ⟨r', hr', hrest⟩ := ih _ h
          exact ⟨r', List.mem_cons_of_mem _ hr', hrest⟩
    · simp only [pairLoop, if_neg he] at h
      cases h

theorem startLoop_some_ex (T : Nat) :
    ∀ (rounds : List Round) (off : Int) (cid : String),
      (startLoop T off rounds).result = some cid →
      ∃ r ∈ rounds, r.elapsed < T ∧ ∃ u ∈ roundEvents r, StartReturns cid u := by
  intro rounds
  induction rounds with
  | nil => intro off cid h; simp [startLoop] at h
  | cons r rest ih =>
    intro off cid h
    by_cases he : r.elapsed < T
    · cases hr : r.resp with
      | fail =>
        simp only [startLoop, if_pos he, hr] at h
        obtain ⟨r', hr', hrest⟩ := ih _ _ h
        exact ⟨r', List.mem_cons_of_mem _ hr', hrest⟩
      | notOk =>
        simp only [startLoop, if_pos he, hr] at h
        obtain ⟨r', hr', hrest⟩ := ih _ _ h
        exact ⟨r', List.mem_cons_of_mem _ hr', hrest⟩
      | ok us =>
        cases hf : (startScan off us).found with
        | some cid' =>
          simp only [startLoop, if_pos he, hr, hf] at h
          obtain ⟨u, hu, hmu⟩ := startScan_found_ex us off cid' hf
          have : cid' = cid := Option.some_inj.mp h
          subst this
          exact ⟨r, List.mem_cons_self _ _, he, u, by rw [roundEvents, hr]; exact hu, hmu⟩
        | none =>
          simp only [startLoop, if_pos he, hr, hf] at h
          obtain ⟨r', hr', hrest⟩ := ih _ _ h
          exact ⟨r', List.mem_cons_of_mem _ hr', hrest⟩
    · simp only [startLoop, if_neg he] at h
      cases h

theorem pairLoop_polled_lt (c k : String) (T : Nat) :
    ∀ (rounds : List Round) (off : Int),
      ∀ p ∈ (pairLoop c k T off rounds).polled, p.1 < T := by
  intro rounds
  induction rounds with
  | nil => intro off p hp; simp [pairLoop] at hp
  | cons r rest ih =>
    intro off p hp
    by_cases he : r.elapsed < T
    · cases hr : r.resp with
      | fail =>
        simp only [pairLoop, if_pos he, hr, List.mem_cons] at hp
        rcases hp with h | h
        · rw [h]; exact he
        · exact ih _ p h
      | notOk =>
        simp only [pairLoop, if_pos he, hr, List.mem_cons] at hp
        rcases hp with h | h
        · rw [h]; exact he
        · exact ih _ p h
      | ok us =>
        by_cases hf : (pairScan c k off us).found = true
        · simp only [pairLoop, if_pos he, hr, if_pos hf, List.mem_cons] at hp
          rcases hp with h | h
          · rw [h]; exact he
          · simp at h
        · simp only [pairLoop, if_pos he, hr, if_neg hf, List.mem_cons] at hp
          rcases hp with h | h
          · rw [h]; exact he
          · exact ih _ p h
    · simp only [pairLoop, if_neg he] at hp
      simp at hp

theorem startLoop_polled_lt (T : Nat) :
    ∀ (rounds : List Round) (off : Int),
      ∀ p ∈ (startLoop T off rounds).polled, p.1 < T := by
  intro rounds
  induction rounds with
  | nil => intro off p hp; simp [startLoop] at hp
  | cons r rest ih =>
    intro off p hp
    by_cases he : r.elapsed < T
    · cases hr : r.resp with
      | fail =>
        simp only [startLoop, if_pos he, hr, List.mem_cons] at hp
        rcases hp with h | h
        · rw [h]; exact he
        · exact ih _ p h
      | notOk =>
        simp only [startLoop, if_pos he, hr, List.mem_cons] at hp
        rcases hp with h | h
        · rw [h]; exact he
        · exact ih _ p h
      | ok us =>
        cases hf : (startScan off us).found with
        | some cid =>
          simp only [startLoop, if_pos he, hr, hf, List.mem_cons] at hp
          rcases hp with h | h
          · rw [h]; exact he
          · simp at h
        | none =>
          simp only [startLoop, if_pos he, hr, hf, List.mem_cons] at hp
          rcases hp with h | h
          · rw [h]; exact he
          · exact ih _ p h
    · simp only [startLoop, if_neg he] at hp
      simp at hp

theorem pairLoop_false_polled_all (c k : String) (T : Nat) :
    ∀ (rounds : List Round) (off : Int),
      (pairLoop c k T off rounds).result = false →
      (pairLoop c k T off rounds).polled.length =
        (rounds.takeWhile (fun r => decide (r.elapsed < T))).length := by
  intro rounds
  induction rounds with
  | nil => intro off _; simp [pairLoop]
  | cons r rest ih =>
    intro off h
    by_cases he : r.elapsed < T
    · cases hr : r.resp with
      | fail =>
        simp only [pairLoop, if_pos he, hr] at h ⊢
        rw [List.takeWhile_cons, if_pos (by simpa using he)]
        simp [ih _ h]
      | notOk =>
        simp only [pairLoop, if_pos he, hr] at h ⊢
        rw [List.takeWhile_cons, if_pos (by simpa using he)]
        simp [ih _ h]
      | ok us =>
        by_cases hf : (pairScan c k off us).found = true
        · simp only [pairLoop, if_pos he, hr, if_pos hf] at h
          cases h
        · simp only [pairLoop, if_pos he, hr, if_neg hf] at h ⊢
          rw [List.takeWhile_cons, if_pos (by simpa using he)]
          simp [ih _ h]
    · simp only [pairLoop, if_neg he]
      rw [List.takeWhile_cons, if_neg (by simpa using he)]
      simp

theorem pairLoop_fail_step (c k : String) (T : Nat) (e : Nat) (off : Int)
    (rest : List Round) (he : e < T) :
    pairLoop c k T off (⟨e, .fail⟩ :: rest) =
      ⟨(pairLoop c k T off rest).result, (pairLoop c k T off rest).offset,
        (e, some off) :: (pairLoop c k T off rest).polled,
        off :: (pairLoop c k T off rest).offsets,
        (pairLoop c k T off rest).procd⟩ := by
  simp [pairLoop, if_pos he]

theorem startLoop_fail_step (T : Nat) (e : Nat) (off : Int)
    (rest : List Round) (he : e < T) :
    startLoop T off (⟨e, .fail⟩ :: rest) =
      ⟨(startLoop T off rest).result, (startLoop T off rest).offset,
        (e, if off = 0 then none else some off) :: (startLoop T off rest).polled,
        off :: (startLoop T off rest).offsets,
        (startLoop T off rest).procd⟩ := by
  simp [startLoop, if_pos he]

theorem pairLoop_all_fail (c k : String) (T : Nat) :
    ∀ (rounds : List Round) (off : Int), (∀ r ∈ rounds, r.resp = .fail) →
      (pairLoop c k T off rounds).result = false ∧
      (pairLoop c k T off rounds).offset = off ∧
      (pairLoop c k T off rounds).procd = [] := by
  intro rounds
  induction rounds with
  | nil => intro off _; simp [pairLoop]
  | cons r rest ih =>
    intro off hall
    have hr : r.resp = .fail := hall r (List.mem_cons_self _ _)
    have hrest : ∀ x ∈ rest, x.resp = .fail := fun x hx => hall x (List.mem_cons_of_mem _ hx)
    by_cases he : r.elapsed < T
    · simp only [pairLoop, if_pos he, hr]
      exact ih off hrest
    · simp [pairLoop, if_neg he]

theorem startLoop_all_fail (T : Nat) :
    ∀ (rounds : List Round) (off : Int), (∀ r ∈ rounds, r.resp = .fail) →
      (startLoop T off rounds).result = none ∧
      (startLoop T off rounds).offset = off ∧
      (startLoop T off rounds).procd = [] := by
  intro rounds
  induction rounds with
  | nil => intro off _; simp [startLoop]
  | cons r rest ih =>
    intro off hall
    have hr : r.resp = .fail := hall r (List.mem_cons_self _ _)
    have hrest : ∀ x ∈ rest, x.resp = .fail := fun x hx => hall x (List.mem_cons_of_mem _ hx)
    by_cases he : r.elapsed < T
    · simp only [startLoop, if_pos he, hr]
      exact ih off hrest
    · simp [startLoop, if_neg he]

/-- Server-contract well-formedness of one batch relative to the cursor
value at which it was requested: update ids strictly ascending and none
below the cursor (the remote service's ordering guarantee). -/

theorem pairScan_offset_le (c k : String) :
    ∀ (us : List Update) (off : Int), ascFrom off us = true →
      off ≤ (pairScan c k off us).offset := by
  intro us
  induction us with
  | nil => intro off _; simp [pairScan]
  | cons u rest ih =>
    intro off hasc
    obtain ⟨h1, h2⟩ := (Bool.and_eq_true _ _).mp hasc
    have hle : off ≤ u.update_id := of_decide_eq_true h1
    have hlt : off < u.update_id + 1 := Int.lt_add_one_iff.mpr hle
    have hrec : u.update_id + 1 ≤ (pairScan c k (u.update_id + 1) rest).offset :=
      ih _ h2
    cases hm : u.message with
    | some msg =>
      by_cases hc : toString msg.chat_id = c
      · by_cases htx : pyStrip (msg.text.getD "") = k
        · simp only [pairScan, hm, if_pos hc, if_pos htx]
          exact Int.le_of_lt hlt
        · simp only [pairScan, hm, if_pos hc, if_neg htx]
          exact Int.le_trans (Int.le_of_lt hlt) hrec
      · simp only [pairScan, hm, if_neg hc]
        exact Int.le_trans (Int.le_of_lt hlt) hrec
    | none =>
      simp only [pairScan, hm]
      exact Int.le_trans (Int.le_of_lt hlt) hrec

theorem pairScan_not_found_offset (c k : String) :
    ∀ (us : List Update) (off : Int), (pairScan c k off us).found = false →
      (pairScan c k off us).offset = batchEnd off us := by
  intro us
  induction us with
  | nil => intro off _; simp [pairScan, batchEnd]
  | cons u rest ih =>
    intro off hf
    cases hm : u.message with
    | some msg =>
      by_cases hc : toString msg.chat_id = c
      · by_cases htx : pyStrip (msg.text.getD "") = k
        · simp only [pairScan, hm, if_pos hc, if_pos htx] at hf
          cases hf
        · simp only [pairScan, hm, if_pos hc, if_neg htx] at hf ⊢
          rw [ih _ hf]; rfl
      · simp only [pairScan, hm, if_neg hc] at hf ⊢
        rw [ih _ hf]; rfl
    | none =>
      simp only [pairScan, hm] at hf ⊢
      rw [ih _ hf]; rfl

theorem pairScan_offset_fold (c k : String) :
    ∀ (us : List Update) (off : Int), ascFrom off us = true →
      (pairScan c k off us).offset =
        (pairScan c k off us).procd.foldl (fun a u => max a (u.update_id + 1)) off := by
  intro us
  induction us with
  | nil => intro off _; simp [pairScan]
  | cons u rest ih =>
    intro off hasc
    obtain ⟨h1, h2⟩ := (Bool.and_eq_true _ _).mp hasc
    have hle : off ≤ u.update_id := of_decide_eq_true h1
    have hmax : max off (u.update_id + 1) = u.update_id + 1 :=
      max_eq_right (Int.le_trans hle (Int.le_of_lt (Int.lt_add_one_iff.mpr Int.le_rfl)))
    cases hm : u.message with
    | some msg =>
      by_cases hc : toString msg.chat_id = c
      · by_cases htx : pyStrip (msg.text.getD "") = k
        · simp only [pairScan, hm, if_pos hc, if_pos htx, List.foldl_cons, List.foldl_nil]
          rw [hmax]
        · simp only [pairScan, hm, if_pos hc, if_neg htx, List.foldl_cons]
          rw [hmax]
          exact ih _ h2
      · simp only [pairScan, hm, if_neg hc, List.foldl_cons]
        rw [hmax]
        exact ih _ h2
    | none =>
      simp only [pairScan, hm, List.foldl_cons]
      rw [hmax]
      exact ih _ h2

theorem pairScan_procd_lt (c k : String) :
    ∀ (us : List Update) (off : Int), ascFrom off us = true →
      ∀ u ∈ (pairScan c k off us).procd,
        u.update_id < (pairScan c k off us).offset := by
  intro us
  induction us with
  | nil => intro off _ u hu; simp [pairScan] at hu
  | cons u rest ih =>
    intro off hasc v hv
    obtain ⟨h1, h2⟩ := (Bool.and_eq_true _ _).mp hasc
    have hrec : u.update_id + 1 ≤ (pairScan c k (u.update_id + 1) rest).offset :=
      pairScan_offset_le c k rest _ h2
    cases hm : u.message with
    | some msg =>
      by_cases hc : toString msg.chat_id = c
      · by_cases htx : pyStrip (msg.text.getD "") = k
        · simp only [pairScan, hm, if_pos hc, if_pos htx, List.mem_singleton] at hv ⊢
          rw [hv]
          exact Int.lt_add_one_iff.mpr Int.le_rfl
        · simp only [pairScan, hm, if_pos hc, if_neg htx, List.mem_cons] at hv ⊢
          rcases hv with h | h
          · rw [h]; exact Int.lt_of_lt_of_le (Int.lt_add_one_iff.mpr Int.le_rfl) hrec
          · exact ih _ h2 v h
      · simp only [pairScan, hm, if_neg hc, List.mem_cons] at hv ⊢
        rcases hv with h | h
        · rw [h]; exact Int.lt_of_lt_of_le (Int.lt_add_one_iff.mpr Int.le_rfl) hrec
        · exact ih _ h2 v h
    | none =>
      simp only [pairScan, hm, List.mem_cons] at hv ⊢
      rcases hv with h | h
      · rw [h]; exact Int.lt_of_lt_of_le (Int.lt_add_one_iff.mpr Int.le_rfl) hrec
      · exact ih _ h2 v h

theorem startScan_offset_le :
    ∀ (us : List Update) (off : Int), ascFrom off us = true →
      off ≤ (startScan off us).offset := by
  intro us
  induction us with
  | nil => intro off _; simp [startScan]
  | cons u rest ih =>
    intro off hasc
    obtain ⟨h1, h2⟩ := (Bool.and_eq_true _ _).mp hasc
    have hle : off ≤ u.update_id := of_decide_eq_true h1
    have hlt : off < u.update_id + 1 := Int.lt_add_one_iff.mpr hle
    have hrec : u.update_id + 1 ≤ (startScan (u.update_id + 1) rest).offset := ih _ h2
    cases hm : u.message with
    | some msg =>
      by_cases htx : pyStrip (msg.text.getD "") = "/start"
      · simp only [startScan, hm, if_pos htx]
        exact Int.le_of_lt hlt
      · simp only [startScan, hm, if_neg htx]
        exact Int.le_trans (Int.le_of_lt hlt) hrec
    | none =>
      simp only [startScan, hm]
      exact Int.le_trans (Int.le_of_lt hlt) hrec

theorem startScan_not_found_offset :
    ∀ (us : List Update) (off : Int), (startScan off us).found = none →
      (startScan off us).offset = batchEnd off us := by
  intro us
  induction us with
  | nil => intro off _; simp [startScan, batchEnd]
  | cons u rest ih =>
    intro off hf
    cases hm : u.message with
    | some msg =>
      by_cases htx : pyStrip (msg.text.getD "") = "/start"
      · simp only [startScan, hm, if_pos htx] at hf
        cases hf
      · simp only [startScan, hm, if_neg htx] at hf ⊢
        rw [ih _ hf]; rfl
    | none =>
      simp only [startScan, hm] at hf ⊢
      rw [ih _ hf]; rfl

theorem startScan_offset_fold :
    ∀ (us : List Update) (off : Int), ascFrom off us = true →
      (startScan off us).offset =
        (startScan off us).procd.foldl (fun a u => max a (u.update_id + 1)) off := by
  intro us
  induction us with
  | nil => intro off _; simp [startScan]
  | cons u rest ih =>
    intro off hasc
    obtain ⟨h1, h2⟩ := (Bool.and_eq_true _ _).mp hasc
    have hle : off ≤ u.update_id := of_decide_eq_true h1
    have hmax : max off (u.update_id + 1) = u.update_id + 1 :=
      max_eq_right (Int.le_trans hle (Int.le_of_lt (Int.lt_add_one_iff.mpr Int.le_rfl)))
    cases hm : u.message with
    | some msg =>
      by_cases htx : pyStrip (msg.text.getD "") = "/start"
      · simp only [startScan, hm, if_pos htx, List.foldl_cons, List.foldl_nil]
        rw [hmax]
      · simp only [startScan, hm, if_neg htx, List.foldl_cons]
        rw [hmax]
        exact ih _ h2
    | none =>
      simp only [startScan, hm, List.foldl_cons]
      rw [hmax]
      exact ih _ h2

theorem startScan_procd_lt :
    ∀ (us : List Update) (off : Int), ascFrom off us = true →
      ∀ u ∈ (startScan off us).procd, u.update_id < (startScan off us).offset := by
  intro us
  induction us with
  | nil => intro off _ u hu; simp [startScan] at hu
  | cons u rest ih =>
    intro off hasc v hv
    obtain ⟨h1, h2⟩ := (Bool.and_eq_true _ _).mp hasc
    have hrec : u.update_id + 1 ≤ (startScan (u.update_id + 1) rest).offset :=
      startScan_offset_le rest _ h2
    cases hm : u.message with
    | some msg =>
      by_cases htx : pyStrip (msg.text.getD "") = "/start"
      · simp only [startScan, hm, if_pos htx, List.mem_singleton] at hv ⊢
        rw [hv]
        exact Int.lt_add_one_iff.mpr Int.le_rfl
      · simp only [startScan, hm, if_neg htx, List.mem_cons] at hv ⊢
        rcases hv with h | h
        · rw [h]; exact Int.lt_of_lt_of_le (Int.lt_add_one_iff.mpr Int.le_rfl) hrec
        · exact ih _ h2 v h
    | none =>
      simp only [startScan, hm, List.mem_cons] at hv ⊢
      rcases hv with h | h
      · rw [h]; exact Int.lt_of_lt_of_le (Int.lt_add_one_iff.mpr Int.le_rfl) hrec
      · exact ih _ h2 v h

theorem pairLoop_cursor (c k : String) (T : Nat) :
    ∀ (rounds : List Round) (off : Int), roundsValid off rounds = true →
      List.Chain (· ≤ ·) off (pairLoop c k T off rounds).offsets ∧
      off ≤ (pairLoop c k T off rounds).offset ∧
      (pairLoop c k T off rounds).offset =
        (pairLoop c k T off rounds).procd.foldl (fun a u => max a (u.update_id + 1)) off ∧
      ∀ u ∈ (pairLoop c k T off rounds).procd,
        u.update_id < (pairLoop c k T off rounds).offset := by
  intro rounds
  induction rounds with
  | nil =>
    intro off _
    refine ⟨List.Chain.nil, Int.le_rfl, by simp [pairLoop], ?_⟩
    intro u hu; simp [pairLoop] at hu
  | cons r rest ih =>
    intro off hv
    by_cases he : r.elapsed < T
    · cases hr : r.resp with
      | fail =>
        rw [roundsValid, hr] at hv
        obtain ⟨hch, hle, hfold, hlt⟩ := ih off hv
        simp only [pairLoop, if_pos he, hr]
        exact ⟨List.Chain.cons Int.le_rfl hch, hle, hfold, hlt⟩
      | notOk =>
        rw [roundsValid, hr] at hv
        obtain ⟨hch, hle, hfold, hlt⟩ := ih off hv
        simp only [pairLoop, if_pos he, hr]
        exact ⟨List.Chain.cons Int.le_rfl hch, hle, hfold, hlt⟩
      | ok us =>
        rw [roundsValid, hr] at hv
        obtain ⟨hasc, hvrest⟩ := (Bool.and_eq_true _ _).mp hv
        have hsle : off ≤ (pairScan c k off us).offset := pairScan_offset_le c k us off hasc
        by_cases hf : (pairScan c k off us).found = true
        · simp only [pairLoop, if_pos he, hr, if_pos hf]
          refine ⟨List.Chain.cons hsle List.Chain.nil, hsle,
            pairScan_offset_fold c k us off hasc, ?_⟩
          exact pairScan_procd_lt c k us off hasc
        · have hfoff : (pairScan c k off us).offset = batchEnd off us :=
            pairScan_not_found_offset c k us off (Bool.of_not_eq_true hf)
          rw [← hfoff] at hvrest
          obtain ⟨hch, hle, hfold, hlt⟩ := ih _ hvrest
          simp only [pairLoop, if_pos he, hr, if_neg hf]
          refine ⟨List.Chain.cons hsle hch, Int.le_trans hsle hle, ?_, ?_⟩
          · rw [List.foldl_append, ← pairScan_offset_fold c k us off hasc]
            exact hfold
          · intro u hu
            rcases List.mem_append.mp hu with h | h
            · exact Int.lt_of_lt_of_le (pairScan_procd_lt c k us off hasc u h) hle
            · exact hlt u h
    · simp only [pairLoop, if_neg he]
      refine ⟨List.Chain.nil, Int.le_rfl, by simp, ?_⟩
      intro u hu; simp at hu

theorem startLoop_cursor (T : Nat) :
    ∀ (rounds : List Round) (off : Int), roundsValid off rounds = true →
      List.Chain (· ≤ ·) off (startLoop T off rounds).offsets ∧
      off ≤ (startLoop T off rounds).offset ∧
      (startLoop T off rounds).offset =
        (startLoop T off rounds).procd.foldl (fun a u => max a (u.update_id + 1)) off ∧
      ∀ u ∈ (startLoop T off rounds).procd,
        u.update_id < (startLoop T off rounds).offset := by
  intro rounds
  induction rounds with
  | nil =>
    intro off _
    refine ⟨List.Chain.nil, Int.le_rfl, by simp [startLoop], ?_⟩
    intro u hu; simp [startLoop] at hu
  | cons r rest ih =>
    intro off hv
    by_cases he : r.elapsed < T
    · cases hr : r.resp with
      | fail =>
        rw [roundsValid, hr] at hv
        obtain ⟨hch, hle, hfold, hlt⟩ := ih off hv
        simp only [startLoop, if_pos he, hr]
        exact ⟨List.Chain.cons Int.le_rfl hch, hle, hfold, hlt⟩
      | notOk =>
        rw [roundsValid, hr] at hv
        obtain ⟨hch, hle, hfold, hlt⟩ := ih off hv
        simp only [startLoop, if_pos he, hr]
        exact ⟨List.Chain.cons Int.le_rfl hch, hle, hfold, hlt⟩
      | ok us =>
        rw [roundsValid, hr] at hv
        obtain ⟨hasc, hvrest⟩ := (Bool.and_eq_true _ _).mp hv
        have hsle : off ≤ (startScan off us).offset := startScan_offset_le us off hasc
        cases hfc : (startScan off us).found with
        | some cid =>
          simp only [startLoop, if_pos he, hr, hfc]
          refine ⟨List.Chain.cons hsle List.Chain.nil, hsle,
            startScan_offset_fold us off hasc, ?_⟩
          exact startScan_procd_lt us off hasc
        | none =>
          have hfoff : (startScan off us).offset = batchEnd off us :=
            startScan_not_found_offset us off hfc
          rw [← hfoff] at hvrest
          obtain ⟨hch, hle, hfold, hlt⟩ := ih _ hvrest
          simp only [startLoop, if_pos he, hr, hfc]
          refine ⟨List.Chain.cons hsle hch, Int.le_trans hsle hle, ?_, ?_⟩
          · rw [List.foldl_append, ← startScan_offset_fold us off hasc]
            exact hfold
          · intro u hu
            rcases List.mem_append.mp hu with h | h
            · exact Int.lt_of_lt_of_le (startScan_procd_lt us off hasc u h) hle
            · exact hlt u h
    · simp only [startLoop, if_neg he]
      refine ⟨List.Chain.nil, Int.le_rfl, by simp, ?_⟩
      intro u hu; simp at hu

/-- The spec's per-line update rule: a line whose prefix is a recognized
key is replaced by the canonical key line; every other line is kept
byte-for-byte. -/

theorem isPrefixOf_append_self :
    ∀ (l1 l2 : List Char), l1.isPrefixOf (l1 ++ l2) = true := by
  intro l1
  induction l1 with
  | nil => intro l2; cases l2 <;> rfl
  | cons a as ih =>
    intro l2
    rw [List.cons_append, List.isPrefixOf_cons₂]
    rw [ih l2, beq_self_eq_true]
    rfl

theorem isPrefixOf_ex :
    ∀ (l1 l2 : List Char), l1.isPrefixOf l2 = true → ∃ r, l2 = l1 ++ r := by
  intro l1
  induction l1 with
  | nil => intro l2 _; exact ⟨l2, rfl⟩
  | cons a as ih =>
    intro l2 h
    cases l2 with
    | nil => cases h
    | cons b bs =>
      rw [List.isPrefixOf_cons₂] at h
      obtain ⟨hab, hrec⟩ := (Bool.and_eq_true _ _).mp h
      obtain ⟨r, hr⟩ := ih bs hrec
      exact ⟨r, by rw [List.cons_append, ← hr, eq_of_beq hab]⟩

theorem startsWith_key_append (key v : String) :
    pyStartsWith (key ++ v ++ "\n") key = true := by
  unfold pyStartsWith
  rw [String.data_append, String.data_append, List.append_assoc]
  exact isPrefixOf_append_self _ _

theorem canonTok_not_chat (v : String) :
    pyStartsWith (tokenKey ++ v ++ "\n") chatKey = false := rfl

theorem canonChat_not_tok (v : String) :
    pyStartsWith (chatKey ++ v ++ "\n") tokenKey = false := rfl

theorem key_not_both {l : String} (h : pyStartsWith l tokenKey = true) :
    pyStartsWith l chatKey = false := by
  unfold pyStartsWith at h ⊢
  obtain ⟨r, hr⟩ := isPrefixOf_ex _ _ h
  rw [hr]
  exact (fun w => rfl : ∀ (w : List Char), (chatKey.data).isPrefixOf (tokenKey.data ++ w) = false) r

theorem specReplaceLine_idem (token chat_id l : String) :
    specReplaceLine token chat_id (specReplaceLine token chat_id l) =
      specReplaceLine token chat_id l := by
  unfold specReplaceLine
  by_cases h1 : pyStartsWith l tokenKey = true
  · rw [if_pos h1, if_pos (startsWith_key_append tokenKey token)]
  · rw [if_neg h1]
    by_cases h2 : pyStartsWith l chatKey = true
    · rw [if_pos h2, if_neg (by rw [canonChat_not_tok]; exact Bool.false_ne_true),
        if_pos (startsWith_key_append chatKey chat_id)]
    · rw [if_neg h2, if_neg h1, if_neg h2]

theorem mergeEnvLines_eq (token chat_id : String) :
    ∀ (lines : List String),
      mergeEnvLines token chat_id lines =
        (lines.map (specReplaceLine token chat_id),
          lines.any (fun l => pyStartsWith l tokenKey),
          lines.any (fun l => pyStartsWith l chatKey)) := by
  intro lines
  induction lines with
  | nil => rfl
  | cons l rest ih =>
    by_cases h1 : pyStartsWith l tokenKey = true
    · have h2 : pyStartsWith l chatKey = false := key_not_both h1
      simp [mergeEnvLines, ih, specReplaceLine, h1, h2]
    · have h1' : pyStartsWith l tokenKey = false := Bool.of_not_eq_true h1
      by_cases h2 : pyStartsWith l chatKey = true
      · simp [mergeEnvLines, ih, specReplaceLine, h1', h2]
      · have h2' : pyStartsWith l chatKey = false := Bool.of_not_eq_true h2
        simp [mergeEnvLines, ih, specReplaceLine, h1', h2']

/-- A proper text line: its characters are a newline-free body followed by
one final newline. -/

theorem readlinesAux_no_nl :
    ∀ (b : List Char), '\n' ∉ b → ∀ (acc ys : List Char),
      readlinesAux (b ++ '\n' :: ys) acc =
        ⟨acc.reverse ++ (b ++ ['\n'])⟩ :: readlinesAux ys [] := by
  intro b
  induction b with
  | nil =>
    intro _ acc ys
    rw [List.nil_append, readlinesAux, if_pos rfl, List.reverse_cons, List.nil_append]
  | cons c b' ih =>
    intro hnm acc ys
    have hc : ¬(c = '\n') := fun h => hnm (h ▸ List.mem_cons_self _ _)
    have hb' : '\n' ∉ b' := fun h => hnm (List.mem_cons_of_mem _ h)
    rw [List.cons_append, readlinesAux, if_neg hc, ih hb' (c :: acc) ys]
    simp [List.reverse_cons, List.append_assoc]

theorem readlines_proper {l : String} (h : ProperLine l) : readlines l = [l] := by
  obtain ⟨b, hdata, hnm⟩ := h
  unfold readlines
  rw [hdata]
  have : b ++ ['\n'] = b ++ '\n' :: ([] : List Char) := rfl
  rw [this, readlinesAux_no_nl b hnm [] []]
  simp only [readlinesAux, List.reverse_nil, List.nil_append]
  congr 1
  exact String.ext (by rw [hdata])

theorem readlinesAux_append :
    ∀ (xs : List Char), xs.getLast? = some '\n' → ∀ (acc ys : List Char),
      readlinesAux (xs ++ ys) acc = readlinesAux xs acc ++ readlinesAux ys [] := by
  intro xs
  induction xs with
  | nil => intro h; cases h
  | cons c rest ih =>
    intro hlast acc ys
    cases rest with
    | nil =>
      have hc : c = '\n' := by
        have : (([] : List Char) ++ [c]).getLast? = some c := List.getLast?_concat []
        rw [List.nil_append] at this
        rw [this] at hlast
        exact (Option.some_inj.mp hlast)
      subst hc
      rw [List.cons_append, List.nil_append, readlinesAux, if_pos rfl, readlinesAux,
        if_pos rfl]
      rw [readlinesAux]
      simp
    | cons d rest' =>
      have hlast' : (d :: rest').getLast? = some '\n' := by
        rw [List.getLast?_cons_cons] at hlast
        exact hlast
      by_cases hc : c = '\n'
      · subst hc
        rw [List.cons_append, readlinesAux, if_pos rfl, readlinesAux, if_pos rfl,
          ih hlast' [] ys, List.cons_append]
      · rw [List.cons_append, readlinesAux, if_neg hc, readlinesAux, if_neg hc,
          ih hlast' (c :: acc) ys]

theorem writelines_readlinesAux :
    ∀ (cs acc : List Char),
      (writelines (readlinesAux cs acc)).data = acc.reverse ++ cs := by
  intro cs
  induction cs with
  | nil =>
    intro acc
    cases acc with
    | nil => rfl
    | cons a as =>
      simp only [readlinesAux, writelines, String.data_append]
  | cons c cs' ih =>
    intro acc
    by_cases hc : c = '\n'
    · subst hc
      rw [readlinesAux, if_pos rfl, writelines, String.data_append, ih []]
      simp [List.reverse_cons, List.append_assoc]
    · simp only [readlinesAux, if_neg hc, ih (c :: acc), List.reverse_cons,
        List.append_assoc, List.singleton_append]

theorem writelines_readlines (s : String) : writelines (readlines s) = s := by
  apply String.ext
  unfold readlines
  rw [writelines_readlinesAux s.data []]
  rfl

theorem writelines_append (L1 L2 : List String) :
    writelines (L1 ++ L2) = writelines L1 ++ writelines L2 := by
  induction L1 with
  | nil =>
    apply String.ext
    simp [writelines, String.data_append]
  | cons l ls ih =>
    apply String.ext
    simp [writelines, String.data_append, ih, List.append_assoc]

theorem readlines_writelines_flatten :
    ∀ (L : List String), (∀ l ∈ L, l.data.getLast? = some '\n') →
      readlines (writelines L) = (L.map readlines).flatten := by
  intro L
  induction L with
  | nil => intro _; rfl
  | cons l ls ih =>
    intro hall
    have hl : l.data.getLast? = some '\n' := hall l (List.mem_cons_self _ _)
    have hls : ∀ x ∈ ls, x.data.getLast? = some '\n' :=
      fun x hx => hall x (List.mem_cons_of_mem _ hx)
    show readlinesAux (l ++ writelines ls).data [] = _
    rw [String.data_append, readlinesAux_append l.data hl [] (writelines ls).data]
    rw [List.map_cons, List.flatten_cons]
    congr 1
    exact ih hls

theorem readlinesAux_proper :
    ∀ (cs : List Char), cs.getLast? = some '\n' → ∀ (acc : List Char), '\n' ∉ acc →
      ∀ l ∈ readlinesAux cs acc, ProperLine l := by
  intro cs
  induction cs with
  | nil => intro h; cases h
  | cons c rest ih =>
    intro hlast acc hacc l hl
    cases rest with
    | nil =>
      have hc : c = '\n' := by
        have h1 : (([] : List Char) ++ [c]).getLast? = some c := List.getLast?_concat []
        rw [List.nil_append] at h1
        rw [h1] at hlast
        exact Option.some_inj.mp hlast
      subst hc
      rw [readlinesAux, if_pos rfl] at hl
      rcases List.mem_cons.mp hl with h | h
      · refine h ▸ ⟨acc.reverse, by rw [List.reverse_cons], ?_⟩
        intro hmem
        exact hacc (List.mem_reverse.mp hmem)
      · cases h
    | cons d rest' =>
      have hlast' : (d :: rest').getLast? = some '\n' := by
        rw [List.getLast?_cons_cons] at hlast
        exact hlast
      by_cases hc : c = '\n'
      · subst hc
        rw [readlinesAux, if_pos rfl] at hl
        rcases List.mem_cons.mp hl with h | h
        · refine h ▸ ⟨acc.reverse, by rw [List.reverse_cons], ?_⟩
          intro hmem
          exact hacc (List.mem_reverse.mp hmem)
        · exact ih hlast' [] (by simp) l h
      · rw [readlinesAux, if_neg hc] at hl
        refine ih hlast' (c :: acc) ?_ l hl
        intro hmem
        rcases List.mem_cons.mp hmem with h | h
        · exact hc h.symm
        · exact hacc h

theorem readlines_proper_of_content {content : String}
    (hc : content = "" ∨ content.data.getLast? = some '\n') :
    ∀ l ∈ readlines content, ProperLine l := by
  rcases hc with h | h
  · subst h
    intro l hl
    cases hl
  · exact readlinesAux_proper content.data h [] (by simp)

theorem ProperLine_ends {l : String} (h : ProperLine l) :
    l.data.getLast? = some '\n' := by
  obtain ⟨b, hdata, _⟩ := h
  rw [hdata]
  exact List.getLast?_concat b

theorem ends_nl (s : String) : (s ++ "\n").data.getLast? = some '\n' := by
  rw [String.data_append]
  exact List.getLast?_concat _

theorem ProperLine_canon {key v : String} (hk : '\n' ∉ key.data)
    (hv : '\n' ∉ v.data) : ProperLine (key ++ v ++ "\n") := by
  refine ⟨key.data ++ v.data, ?_, ?_⟩
  · rw [String.data_append, String.data_append, List.append_assoc]
  · intro hmem
    rcases List.mem_append.mp hmem with h | h
    · exact hk h
    · exact hv h

theorem tokenKey_no_nl : '\n' ∉ tokenKey.data := by decide

theorem chatKey_no_nl : '\n' ∉ chatKey.data := by decide

theorem readlines_nl_cons (x : String) :
    readlines ("\n" ++ x) = "\n" :: readlines x := by
  unfold readlines
  rw [String.data_append]
  show readlinesAux ('\n' :: x.data) [] = _
  rw [readlinesAux, if_pos rfl]
  rfl

theorem key_not_both' {l : String} (h : pyStartsWith l chatKey = true) :
    pyStartsWith l tokenKey = false := by
  unfold pyStartsWith at h ⊢
  obtain ⟨r, hr⟩ := isPrefixOf_ex _ _ h
  rw [hr]
  exact (fun w => rfl :
    ∀ (w : List Char), (tokenKey.data).isPrefixOf (chatKey.data ++ w) = false) r

theorem specReplaceLine_nl (token chat_id : String) :
    specReplaceLine token chat_id "\n" = "\n" := by
  unfold specReplaceLine
  rw [if_neg (by rw [(rfl : pyStartsWith "\n" tokenKey = false)]; exact Bool.false_ne_true),
    if_neg (by rw [(rfl : pyStartsWith "\n" chatKey = false)]; exact Bool.false_ne_true)]

theorem specReplaceLine_canonTok (token chat_id : String) :
    specReplaceLine token chat_id (tokenKey ++ token ++ "\n") =
      tokenKey ++ token ++ "\n" := by
  unfold specReplaceLine
  rw [if_pos (startsWith_key_append tokenKey token)]

theorem specReplaceLine_canonChat (token chat_id : String) :
    specReplaceLine token chat_id (chatKey ++ chat_id ++ "\n") =
      chatKey ++ chat_id ++ "\n" := by
  unfold specReplaceLine
  rw [if_neg (by rw [canonChat_not_tok]; exact Bool.false_ne_true),
    if_pos (startsWith_key_append chatKey chat_id)]

theorem saveCredLines_eq (L : List String) (token chat_id : String) :
    saveCredLines L token chat_id =
      (L.map (specReplaceLine token chat_id) ++
        (if L.any (fun l => pyStartsWith l tokenKey) then []
          else ["\n" ++ tokenKey ++ token ++ "\n"])) ++
        (if L.any (fun l => pyStartsWith l chatKey) then []
          else [chatKey ++ chat_id ++ "\n"]) := by
  unfold saveCredLines
  rw [mergeEnvLines_eq]
  by_cases h1 : L.any (fun l => pyStartsWith l tokenKey) = true
  · by_cases h2 : L.any (fun l => pyStartsWith l chatKey) = true
    · simp [h1, h2]
    · simp [h1, Bool.of_not_eq_true h2]
  · by_cases h2 : L.any (fun l => pyStartsWith l chatKey) = true
    · simp [Bool.of_not_eq_true h1, h2]
    · simp [Bool.of_not_eq_true h1, Bool.of_not_eq_true h2]

theorem saveCredLines_elements {L : List String} {token chat_id : String}
    (hL : ∀ l ∈ L, ProperLine l) (ht : '\n' ∉ token.data)
    (hi : '\n' ∉ chat_id.data) :
    ∀ y ∈ saveCredLines L token chat_id,
      (∀ x ∈ readlines y, specReplaceLine token chat_id x = x) ∧
      y.data.getLast? = some '\n' := by
  intro y hy
  rw [saveCredLines_eq] at hy
  rcases List.mem_append.mp hy with hy1 | hy2
  · rcases List.mem_append.mp hy1 with hmap | htok
    · obtain ⟨z, hz, hrepl⟩ := List.mem_map.mp hmap
      have hzp : ProperLine z := hL z hz
      have hyp : ProperLine y := by
        rw [← hrepl]
        unfold specReplaceLine
        by_cases h1 : pyStartsWith z tokenKey = true
        · rw [if_pos h1]
          exact ProperLine_canon tokenKey_no_nl ht
        · rw [if_neg h1]
          by_cases h2 : pyStartsWith z chatKey = true
          · rw [if_pos h2]
            exact ProperLine_canon chatKey_no_nl hi
          · rw [if_neg h2]
            exact hzp
      refine ⟨?_, ProperLine_ends hyp⟩
      intro x hx
      rw [readlines_proper hyp] at hx
      rcases List.mem_cons.mp hx with h | h
      · rw [h, ← hrepl]
        exact specReplaceLine_idem token chat_id z
      · cases h
    · have heq : y = "\n" ++ tokenKey ++ token ++ "\n" := by
        by_cases h1 : L.any (fun l => pyStartsWith l tokenKey) = true
        · rw [if_pos h1] at htok
          cases htok
        · rw [if_neg h1] at htok
          rcases List.mem_cons.mp htok with h | h
          · exact h
          · cases h
      subst heq
      constructor
      · intro x hx
        rw [String.append_assoc, String.append_assoc, readlines_nl_cons,
          ← String.append_assoc] at hx
        rcases List.mem_cons.mp hx with h | h
        · rw [h]
          exact specReplaceLine_nl token chat_id
        · rw [readlines_proper (ProperLine_canon tokenKey_no_nl ht)] at h
          rcases List.mem_cons.mp h with h' | h'
          · rw [h']
            exact specReplaceLine_canonTok token chat_id
          · cases h'
      · exact ends_nl _
  · -- the appended chat-id line, present only when the key was absent
    have hch : y = chatKey ++ chat_id ++ "\n" := by
      by_cases h2 : L.any (fun l => pyStartsWith l chatKey) = true
      · rw [if_pos h2] at hy2
        cases hy2
      · rw [if_neg h2] at hy2
        rcases List.mem_cons.mp hy2 with h | h
        · exact h
        · cases h
    subst hch
    constructor
    · intro x hx
      rw [readlines_proper (ProperLine_canon chatKey_no_nl hi)] at hx
      rcases List.mem_cons.mp hx with h | h
      · rw [h]
        exact specReplaceLine_canonChat token chat_id
      · cases h
    · exact ends_nl _

theorem saveCredLines_flatten_keys {L : List String} {token chat_id : String}
    (ht : '\n' ∉ token.data) (hi : '\n' ∉ chat_id.data) :
    (((saveCredLines L token chat_id).map readlines).flatten.any
        (fun l => pyStartsWith l tokenKey)) = true ∧
      (((saveCredLines L token chat_id).map readlines).flatten.any
        (fun l => pyStartsWith l chatKey)) = true := by
  have hmemTok : (tokenKey ++ token ++ "\n") ∈
      ((saveCredLines L token chat_id).map readlines).flatten := by
    by_cases h1 : L.any (fun l => pyStartsWith l tokenKey) = true
    · obtain ⟨z, hz, hpz⟩ := List.any_eq_true.mp h1
      have hrz : specReplaceLine token chat_id z = tokenKey ++ token ++ "\n" := by
        unfold specReplaceLine
        rw [if_pos hpz]
      have hcz : (tokenKey ++ token ++ "\n") ∈ saveCredLines L token chat_id := by
        rw [saveCredLines_eq]
        exact List.mem_append_left _ (List.mem_append_left _
          (hrz ▸ List.mem_map_of_mem _ hz))
      refine List.mem_flatten.mpr ⟨readlines (tokenKey ++ token ++ "\n"),
        List.mem_map_of_mem _ hcz, ?_⟩
      rw [readlines_proper (ProperLine_canon tokenKey_no_nl ht)]
      exact List.mem_cons_self _ _
    · have hcz : ("\n" ++ tokenKey ++ token ++ "\n") ∈ saveCredLines L token chat_id := by
        rw [saveCredLines_eq]
        refine List.mem_append_left _ (List.mem_append_right _ ?_)
        rw [if_neg h1]
        exact List.mem_cons_self _ _
      refine List.mem_flatten.mpr ⟨readlines ("\n" ++ tokenKey ++ token ++ "\n"),
        List.mem_map_of_mem _ hcz, ?_⟩
      rw [String.append_assoc, String.append_assoc, readlines_nl_cons,
        ← String.append_assoc]
      refine List.mem_cons_of_mem _ ?_
      rw [readlines_proper (ProperLine_canon tokenKey_no_nl ht)]
      exact List.mem_cons_self _ _
  have hmemChat : (chatKey ++ chat_id ++ "\n") ∈
      ((saveCredLines L token chat_id).map readlines).flatten := by
    have hcz : (chatKey ++ chat_id ++ "\n") ∈ saveCredLines L token chat_id := by
      by_cases h2 : L.any (fun l => pyStartsWith l chatKey) = true
      · obtain ⟨z, hz, hpz⟩ := List.any_eq_true.mp h2
        have hrz : specReplaceLine token chat_id z = chatKey ++ chat_id ++ "\n" := by
          unfold specReplaceLine
          rw [if_neg (by rw [key_not_both' hpz]; exact Bool.false_ne_true), if_pos hpz]
        rw [saveCredLines_eq]
        exact List.mem_append_left _ (List.mem_append_left _
          (hrz ▸ List.mem_map_of_mem _ hz))
      · rw [saveCredLines_eq]
        refine List.mem_append_right _ ?_
        rw [if_neg h2]
        exact List.mem_cons_self _ _
    refine List.mem_flatten.mpr ⟨readlines (chatKey ++ chat_id ++ "\n"),
      List.mem_map_of_mem _ hcz, ?_⟩
    rw [readlines_proper (ProperLine_canon chatKey_no_nl hi)]
    exact List.mem_cons_self _ _
  exact ⟨List.any_eq_true.mpr ⟨_, hmemTok, startsWith_key_append tokenKey token⟩,
    List.any_eq_true.mpr ⟨_, hmemChat, startsWith_key_append chatKey chat_id⟩⟩

/-- Claim C7 (corrected, amended form): the credential-store merge is
idempotent for every initial content that is empty or newline-terminated
(and newline-free key values).  The original unrestricted claim fails when
the final line lacks a trailing newline and only the chat-id key is
absent: the appended chat-id line then fuses with the last line, so a
second application appends the key again. -/
theorem save_credentials_idempotent_on_proper_content (content token chat_id : String)
    (hc : content = "" ∨ content.data.getLast? = some '\n')
    (ht : '\n' ∉ token.data) (hi : '\n' ∉ chat_id.data) :
    saveCredentials (saveCredentials content token chat_id) token chat_id =
      saveCredentials content token chat_id := by
  have hprop : ∀ l ∈ readlines content, ProperLine l :=
    readlines_proper_of_content hc
  have hElems := saveCredLines_elements hprop ht hi
  have hEnds : ∀ l ∈ saveCredLines (readlines content) token chat_id,
      l.data.getLast? = some '\n' := fun l hl => (hElems l hl).2
  have hL2 : readlines (saveCredentials content token chat_id) =
      ((saveCredLines (readlines content) token chat_id).map readlines).flatten := by
    unfold saveCredentials
    exact readlines_writelines_flatten _ hEnds
  have hfix : ∀ x ∈ readlines (saveCredentials content token chat_id),
      specReplaceLine token chat_id x = x := by
    intro x hx
    rw [hL2] at hx
    obtain ⟨ys, hys, hxy⟩ := List.mem_flatten.mp hx
    obtain ⟨y, hy, hyy⟩ := List.mem_map.mp hys
    exact (hElems y hy).1 x (hyy ▸ hxy)
  have hkeys := @saveCredLines_flatten_keys (readlines content) token chat_id ht hi
  rw [← hL2] at hkeys
  show writelines (saveCredLines (readlines (saveCredentials content token chat_id))
      token chat_id) = saveCredentials content token chat_id
  rw [saveCredLines_eq, if_pos hkeys.1, if_pos hkeys.2, List.append_nil,
    List.append_nil]
  rw [List.map_congr_left hfix, List.map_id']
  exact writelines_readlines _

/-- Claim C1 (corrected), counterexample: the verify phase strips
whitespace from the event text before comparing (line 142), so the issued
code "482913" IS matched by the event text "482913 " even though the two
strings differ; the claimed exact raw-text equality does not hold. -/
theorem pairing_accepts_trailing_whitespace :
    (wait_for_pairing_code [⟨0, .ok [⟨1, some ⟨777, some "482913 ", none⟩⟩]⟩]
        "777" "482913" 300).result = true ∧
      ("482913 " : String) ≠ "482913" := by
  constructor
  · decide
  · decide

/-- Claim C1 (corrected, amended form): the verify phase returns `True`
only when some pre-deadline event carries a message from the bound chat
whose whitespace-stripped text equals the issued code character for
character; in particular "482913a" never matches "482913", while
"482913 " does (its stripped form is the code). -/
theorem pairing_true_implies_stripped_match (rounds : List Round)
    (chat code : String) (T : Nat)
    (h : (wait_for_pairing_code rounds chat code T).result = true) :
    ∃ r ∈ rounds, r.elapsed < T ∧ ∃ u ∈ roundEvents r, MatchesPair chat code u :=
  pairLoop_true_ex chat code T rounds 0 h

/-- Witness for the amended C1 theorem at a concrete run that matched. -/
theorem pairing_true_implies_stripped_match_witness :
    ∃ r ∈ [Round.mk 0 (.ok [⟨1, some ⟨777, some " 482913 ", none⟩⟩])],
      r.elapsed < 300 ∧ ∃ u ∈ roundEvents r, MatchesPair "777" "482913" u :=
  pairing_true_implies_stripped_match _ "777" "482913" 300 (by decide)

/-- An update that the challenge verify phase treats as noise: no message,
a message from a foreign chat, or a command-marker text. -/

theorem pairLoop_first_polled (c k : String) (T : Nat) :
    ∀ (rounds : List Round) (off : Int) (pr : Nat × Option Int),
      (pairLoop c k T off rounds).polled.head? = some pr → pr.2 = some off := by
  intro rounds off pr h
  cases rounds with
  | nil => cases h
  | cons r rest =>
    by_cases he : r.elapsed < T
    · cases hr : r.resp with
      | fail =>
        simp only [pairLoop, if_pos he, hr, List.head?_cons] at h
        rw [← Option.some_inj.mp h]
      | notOk =>
        simp only [pairLoop, if_pos he, hr, List.head?_cons] at h
        rw [← Option.some_inj.mp h]
      | ok us =>
        by_cases hf : (pairScan c k off us).found = true
        · simp only [pairLoop, if_pos he, hr, if_pos hf, List.head?_cons] at h
          rw [← Option.some_inj.mp h]
        · simp only [pairLoop, if_pos he, hr, if_neg hf, List.head?_cons] at h
          rw [← Option.some_inj.mp h]
    · simp only [pairLoop, if_neg he] at h
      cases h

/-- Claim C2 (confirmed): in the verify phase, for any issued six-digit
code, events from a foreign conversation never satisfy the challenge
regardless of text, and events whose text begins with the command marker
"/" never satisfy it even from the bound conversation: a run fed only
such events returns `False`. -/
theorem foreign_or_command_events_never_pair (rounds : List Round)
    (chat code : String) (T : Nat) (hcode : isCodeShape code = true)
    (hnoise : rounds.all (fun r => (roundEvents r).all (eventNoise chat)) = true) :
    (wait_for_pairing_code rounds chat code T).result = false := by
  rcases Bool.eq_false_or_eq_true (wait_for_pairing_code rounds chat code T).result
    with hres | hres
  · exfalso
    obtain ⟨r, hr, _, u, hu, m, hm, hchat, hstrip⟩ :=
      pairLoop_true_ex chat code T rounds 0 hres
    have h1 := List.all_eq_true.mp (List.all_eq_true.mp hnoise r hr) u hu
    simp only [eventNoise, hm] at h1
    rcases (Bool.or_eq_true _ _).mp h1 with h2 | h2
    · rw [hchat, beq_self_eq_true] at h2
      cases h2
    · exact strip_ne_code_of_slash h2 hcode hstrip
  · exact hres

/-- Witness for C2: a foreign-chat event carrying the very code and a
bound-chat command both fail to satisfy the challenge. -/
theorem foreign_or_command_events_never_pair_witness :
    (wait_for_pairing_code
        [⟨0, .ok [⟨1, some ⟨888, some "482913", none⟩⟩,
          ⟨2, some ⟨777, some "/482913", none⟩⟩]⟩]
        "777" "482913" 300).result = false :=
  foreign_or_command_events_never_pair _ "777" "482913" 300 (by decide) (by decide)

/-- Claim C3 (corrected), counterexample: the handshake listener strips
whitespace before comparing with "/start" (line 99), so the event text
"/start " (which is not exactly "/start") does trigger a match and
returns the sender's conversation id. -/
theorem handshake_accepts_padded_start :
    (wait_for_start_command [⟨0, .ok [⟨1, some ⟨777, some "/start ", some "Alice"⟩⟩]⟩]
        300).result = some "777" ∧
      ("/start " : String) ≠ "/start" := by
  constructor
  · decide
  · decide

/-- Claim C3 (corrected, amended form): the handshake listener returns a
conversation id only from a pre-deadline event whose whitespace-stripped
text is exactly "/start", and the returned id is the string form of that
event's chat id. -/
theorem handshake_some_implies_stripped_start (rounds : List Round) (T : Nat)
    (cid : String) (h : (wait_for_start_command rounds T).result = some cid) :
    ∃ r ∈ rounds, r.elapsed < T ∧ ∃ u ∈ roundEvents r, StartReturns cid u :=
  startLoop_some_ex T rounds 0 cid h

/-- Witness for the amended C3 theorem at a concrete matching run. -/
theorem handshake_some_implies_stripped_start_witness :
    ∃ r ∈ [Round.mk 2 (.ok [⟨4, some ⟨777, some "/start", some "Alice"⟩⟩])],
      r.elapsed < 300 ∧ ∃ u ∈ roundEvents r, StartReturns "777" u :=
  handshake_some_implies_stripped_start _ 300 "777" (by decide)

/-- Claim C4 (corrected), counterexample: the cursor is a local variable
of each phase and is reset to 0 when the challenge phase starts.  In this
attempt the handshake consumes update 5 ("/start") and its cursor reaches
6, yet the challenge phase's first request carries offset 0, and — the
handshake never having acknowledged update 5 to the server — the challenge
phase iterates over update 5 a second time, so the update is observed by
both phases. -/
theorem challenge_cursor_reset_refetch :
    (pairingAttempt "482913"
        [⟨0, .ok [⟨5, some ⟨777, some "/start", some "Alice"⟩⟩]⟩]
        [⟨0, .ok [⟨5, some ⟨777, some "/start", some "Alice"⟩⟩,
          ⟨6, some ⟨777, some "482913", none⟩⟩]⟩]).1.offset = 6 ∧
      ((pairingAttempt "482913"
        [⟨0, .ok [⟨5, some ⟨777, some "/start", some "Alice"⟩⟩]⟩]
        [⟨0, .ok [⟨5, some ⟨777, some "/start", some "Alice"⟩⟩,
          ⟨6, some ⟨777, some "482913", none⟩⟩]⟩]).2.map
        (fun p => p.polled.head?)) = some (some (0, some 0)) ∧
      ((pairingAttempt "482913"
        [⟨0, .ok [⟨5, some ⟨777, some "/start", some "Alice"⟩⟩]⟩]
        [⟨0, .ok [⟨5, some ⟨777, some "/start", some "Alice"⟩⟩,
          ⟨6, some ⟨777, some "482913", none⟩⟩]⟩]).1.procd.map
        (fun u => u.update_id)) = [5] ∧
      ((pairingAttempt "482913"
        [⟨0, .ok [⟨5, some ⟨777, some "/start", some "Alice"⟩⟩]⟩]
        [⟨0, .ok [⟨5, some ⟨777, some "/start", some "Alice"⟩⟩,
          ⟨6, some ⟨777, some "482913", none⟩⟩]⟩]).2.map
        (fun p => p.procd.map (fun u => u.update_id))) = some [5, 6] := by
  refine ⟨by decide, by decide, by decide, by decide⟩

/-- Claim C4 (corrected, amended form): each phase owns a local cursor;
whenever the challenge phase of an attempt polls at all, its first request
carries offset 0, independently of how far the handshake phase advanced. -/
theorem challenge_phase_cursor_starts_at_zero (code : String)
    (rounds1 rounds2 : List Round) (p : PhaseOut Bool) (pr : Nat × Option Int)
    (hp : (pairingAttempt code rounds1 rounds2).2 = some p)
    (hpr : p.polled.head? = some pr) : pr.2 = some 0 := by
  cases hres : (wait_for_start_command rounds1 300).result with
  | none =>
    simp only [pairingAttempt, hres] at hp
    cases hp
  | some cid =>
    simp only [pairingAttempt, hres] at hp
    have hpw : wait_for_pairing_code rounds2 cid code 300 = p := Option.some_inj.mp hp
    rw [← hpw] at hpr
    exact pairLoop_first_polled cid code 300 rounds2 0 pr hpr

/-- Witness for the amended C4 theorem: in a concrete attempt whose
handshake cursor reached 6, the challenge phase's first request still
carries offset 0. -/
theorem challenge_phase_cursor_starts_at_zero_witness :
    ((0, some 0) : Nat × Option Int).2 = some 0 :=
  challenge_phase_cursor_starts_at_zero "482913"
    [⟨0, .ok [⟨5, some ⟨777, some "/start", some "Alice"⟩⟩]⟩]
    [⟨0, .ok [⟨5, some ⟨777, some "/start", some "Alice"⟩⟩,
      ⟨6, some ⟨777, some "482913", none⟩⟩]⟩]
    (wait_for_pairing_code
      [⟨0, .ok [⟨5, some ⟨777, some "/start", some "Alice"⟩⟩,
        ⟨6, some ⟨777, some "482913", none⟩⟩]⟩] "777" "482913" 300)
    (0, some 0) (by decide) (by decide)

theorem pairScan_found_offset_indep (c k : String) :
    ∀ (us : List Update) (off off' : Int),
      (pairScan c k off us).found = (pairScan c k off' us).found := by
  intro us off off'
  cases us with
  | nil => rfl
  | cons u rest => rfl

theorem pairScan_found_filter (c k : String) :
    ∀ (us : List Update) (off : Int),
      (pairScan c k off us).found =
        (pairScan c k off (us.filter (fun u => u.message.isSome))).found := by
  intro us
  induction us with
  | nil => intro off; rfl
  | cons u rest ih =>
    intro off
    cases hm : u.message with
    | some msg =>
      have hfil : (u :: rest).filter (fun u => u.message.isSome) =
          u :: rest.filter (fun u => u.message.isSome) := by
        rw [List.filter_cons, if_pos (by rw [hm]; rfl)]
      rw [hfil]
      by_cases hc : toString msg.chat_id = c
      · by_cases htx : pyStrip (msg.text.getD "") = k
        · simp only [pairScan, hm, if_pos hc, if_pos htx]
        · simp only [pairScan, hm, if_pos hc, if_neg htx]
          rw [ih _]
      · simp only [pairScan, hm, if_neg hc]
        rw [ih _]
    | none =>
      have hfil : (u :: rest).filter (fun u => u.message.isSome) =
          rest.filter (fun u => u.message.isSome) := by
        rw [List.filter_cons, if_neg (by rw [hm]; simp)]
      rw [hfil]
      simp only [pairScan, hm]
      rw [ih _]
      exact pairScan_found_offset_indep c k _ _ _

theorem startScan_found_offset_indep :
    ∀ (us : List Update) (off off' : Int),
      (startScan off us).found = (startScan off' us).found := by
  intro us off off'
  cases us with
  | nil => rfl
  | cons u rest => rfl

theorem startScan_found_filter :
    ∀ (us : List Update) (off : Int),
      (startScan off us).found =
        (startScan off (us.filter (fun u => u.message.isSome))).found := by
  intro us
  induction us with
  | nil => intro off; rfl
  | cons u rest ih =>
    intro off
    cases hm : u.message with
    | some msg =>
      have hfil : (u :: rest).filter (fun u => u.message.isSome) =
          u :: rest.filter (fun u => u.message.isSome) := by
        rw [List.filter_cons, if_pos (by rw [hm]; rfl)]
      rw [hfil]
      by_cases htx : pyStrip (msg.text.getD "") = "/start"
      · simp only [startScan, hm, if_pos htx]
      · simp only [startScan, hm, if_neg htx]
        rw [ih _]
    | none =>
      have hfil : (u :: rest).filter (fun u => u.message.isSome) =
          rest.filter (fun u => u.message.isSome) := by
        rw [List.filter_cons, if_neg (by rw [hm]; simp)]
      rw [hfil]
      simp only [startScan, hm]
      rw [ih _]
      exact startScan_found_offset_indep _ _ _

/-- Claim C5 (confirmed): for round sequences obeying the service
contract (ids strictly ascending per batch, none below the requested
cursor), in both polling loops the cursor values recorded after each
request never decrease, the final cursor is the maximum of
`update_id + 1` over all iterated updates (0 when none), every iterated
update — message or not — has its id strictly below the final cursor, and
the match outcome of a batch scan is unchanged when message-less updates
are removed (they are never surfaced as events). -/
theorem cursor_monotone_and_complete (rounds1 rounds2 : List Round)
    (chat code : String) (T1 T2 : Nat)
    (h1 : roundsValid 0 rounds1 = true) (h2 : roundsValid 0 rounds2 = true) :
    List.Chain (· ≤ ·) 0 (wait_for_start_command rounds1 T1).offsets ∧
    (wait_for_start_command rounds1 T1).offset =
      (wait_for_start_command rounds1 T1).procd.foldl
        (fun a u => max a (u.update_id + 1)) 0 ∧
    (∀ u ∈ (wait_for_start_command rounds1 T1).procd,
      u.update_id < (wait_for_start_command rounds1 T1).offset) ∧
    List.Chain (· ≤ ·) 0 (wait_for_pairing_code rounds2 chat code T2).offsets ∧
    (wait_for_pairing_code rounds2 chat code T2).offset =
      (wait_for_pairing_code rounds2 chat code T2).procd.foldl
        (fun a u => max a (u.update_id + 1)) 0 ∧
    (∀ u ∈ (wait_for_pairing_code rounds2 chat code T2).procd,
      u.update_id < (wait_for_pairing_code rounds2 chat code T2).offset) ∧
    (∀ (off : Int) (us : List Update),
      (startScan off us).found =
        (startScan off (us.filter (fun u => u.message.isSome))).found) ∧
    (∀ (off : Int) (us : List Update),
      (pairScan chat code off us).found =
        (pairScan chat code off (us.filter (fun u => u.message.isSome))).found) := by
  obtain ⟨sc1, _, sf1, sl1⟩ := startLoop_cursor T1 rounds1 0 h1
  obtain ⟨pc2, _, pf2, pl2⟩ := pairLoop_cursor chat code T2 rounds2 0 h2
  exact ⟨sc1, sf1, sl1, pc2, pf2, pl2,
    fun off us => startScan_found_filter us off,
    fun off us => pairScan_found_filter chat code us off⟩

/-- Witness for C5: the cursor chain at a concrete valid run containing a
message-less update. -/
theorem cursor_monotone_and_complete_witness :
    List.Chain (· ≤ ·) 0
      (wait_for_start_command
        [⟨0, .ok [⟨3, none⟩, ⟨4, some ⟨777, some "hi", none⟩⟩]⟩,
          ⟨2, .ok [⟨9, some ⟨777, some "/start", none⟩⟩]⟩] 300).offsets :=
  (cursor_monotone_and_complete
    [⟨0, .ok [⟨3, none⟩, ⟨4, some ⟨777, some "hi", none⟩⟩]⟩,
      ⟨2, .ok [⟨9, some ⟨777, some "/start", none⟩⟩]⟩]
    [⟨0, .ok [⟨1, some ⟨777, some "482913", none⟩⟩]⟩]
    "777" "482913" 300 300 (by decide) (by decide)).1

/-- Claim C6 (confirmed): persisting the binding rebuilds the line list by
replacing in place every line whose prefix is a recognized key with the
canonical key line, keeping all other lines byte-for-byte in their
original order, and appending missing keys at the end (the appended token
line is preceded by a guard newline); on the spec's example file the
result is exactly the claimed content. -/
theorem save_credentials_merge_shape :
    (∀ (lines : List String) (token chat_id : String),
      saveCredLines lines token chat_id =
        (lines.map (specReplaceLine token chat_id) ++
          (if lines.any (fun l => pyStartsWith l tokenKey) then []
            else ["\n" ++ tokenKey ++ token ++ "\n"])) ++
          (if lines.any (fun l => pyStartsWith l chatKey) then []
            else [chatKey ++ chat_id ++ "\n"])) ∧
    saveCredentials "A=1\nTELEGRAM_BOT_TOKEN=old\nB=2\n" "new" "555" =
      "A=1\nTELEGRAM_BOT_TOKEN=new\nB=2\nTELEGRAM_CHAT_ID=555\n" :=
  ⟨fun lines token chat_id => saveCredLines_eq lines token chat_id, by decide⟩

/-- Claim C7 (corrected), counterexample: on the content
"TELEGRAM_BOT_TOKEN=old\nB=2" — whose last line lacks a trailing newline —
applying the merge twice appends a second chat-id line, so the merge is
not idempotent for every initial content. -/
theorem save_credentials_not_idempotent :
    saveCredentials (saveCredentials "TELEGRAM_BOT_TOKEN=old\nB=2" "new" "555")
        "new" "555" ≠
      saveCredentials "TELEGRAM_BOT_TOKEN=old\nB=2" "new" "555" := by
  decide

/-- Witness for the amended C7 theorem on a newline-terminated file. -/
theorem save_credentials_idempotent_witness :
    saveCredentials (saveCredentials "A=1\nTELEGRAM_BOT_TOKEN=old\nB=2\n" "new" "555")
        "new" "555" =
      saveCredentials "A=1\nTELEGRAM_BOT_TOKEN=old\nB=2\n" "new" "555" :=
  save_credentials_idempotent_on_proper_content "A=1\nTELEGRAM_BOT_TOKEN=old\nB=2\n"
    "new" "555" (Or.inr (by decide)) (by decide) (by decide)

/-- Claim C8 (confirmed): a fetch/parse failure in a polling round is
fully swallowed: in either loop the failed round contributes only a trace
entry — result, cursor, and iterated updates are those of the remaining
rounds with the cursor unchanged — and a run all of whose rounds fail
returns the timeout outcome with the cursor still 0 and no update ever
iterated. -/
theorem poll_failure_swallowed (chat code : String) (T e : Nat) (off : Int)
    (rest allFail : List Round) (he : e < T)
    (hall : ∀ r ∈ allFail, r.resp = .fail) :
    pairLoop chat code T off (⟨e, .fail⟩ :: rest) =
      ⟨(pairLoop chat code T off rest).result, (pairLoop chat code T off rest).offset,
        (e, some off) :: (pairLoop chat code T off rest).polled,
        off :: (pairLoop chat code T off rest).offsets,
        (pairLoop chat code T off rest).procd⟩ ∧
    startLoop T off (⟨e, .fail⟩ :: rest) =
      ⟨(startLoop T off rest).result, (startLoop T off rest).offset,
        (e, if off = 0 then none else some off) :: (startLoop T off rest).polled,
        off :: (startLoop T off rest).offsets,
        (startLoop T off rest).procd⟩ ∧
    (wait_for_pairing_code allFail chat code T).result = false ∧
    (wait_for_pairing_code allFail chat code T).offset = 0 ∧
    (wait_for_pairing_code allFail chat code T).procd = [] ∧
    (wait_for_start_command allFail T).result = none ∧
    (wait_for_start_command allFail T).offset = 0 ∧
    (wait_for_start_command allFail T).procd = [] := by
  obtain ⟨hp1, hp2, hp3⟩ := pairLoop_all_fail chat code T allFail 0 hall
  obtain ⟨hs1, hs2, hs3⟩ := startLoop_all_fail T allFail 0 hall
  exact ⟨pairLoop_fail_step chat code T e off rest he,
    startLoop_fail_step T e off rest he, hp1, hp2, hp3, hs1, hs2, hs3⟩

/-- Witness for C8: a run of two failing rounds returns the timeout
outcome. -/
theorem poll_failure_swallowed_witness :
    (wait_for_pairing_code [⟨0, .fail⟩, ⟨2, .fail⟩] "777" "482913" 300).result =
      false :=
  (poll_failure_swallowed "777" "482913" 300 0 7 [] [⟨0, .fail⟩, ⟨2, .fail⟩]
    (by decide) (by decide)).2.2.1

/-- Claim C9 (confirmed): when no qualifying event occurs in any round
that starts before the deadline, the handshake phase returns `none` and
the challenge phase returns `false`, and neither loop ever issues a
request once the elapsed clock has reached its deadline. -/
theorem phase_timeout_behavior (rounds1 rounds2 : List Round)
    (chat code : String) (T1 T2 : Nat)
    (h1 : rounds1.all (fun r => !(decide (r.elapsed < T1)) ||
      (roundEvents r).all (fun u => !(isStartEvent u))) = true)
    (h2 : rounds2.all (fun r => !(decide (r.elapsed < T2)) ||
      (roundEvents r).all (fun u => !(isPairEvent chat code u))) = true) :
    (wait_for_start_command rounds1 T1).result = none ∧
    (∀ p ∈ (wait_for_start_command rounds1 T1).polled, p.1 < T1) ∧
    (wait_for_pairing_code rounds2 chat code T2).result = false ∧
    (∀ p ∈ (wait_for_pairing_code rounds2 chat code T2).polled, p.1 < T2) := by
  refine ⟨?_, startLoop_polled_lt T1 rounds1 0, ?_, pairLoop_polled_lt chat code T2 rounds2 0⟩
  · cases hres : (wait_for_start_command rounds1 T1).result with
    | none => rfl
    | some cid =>
      exfalso
      obtain ⟨r, hr, he, u, hu, m, hm, hstrip, _⟩ :=
        startLoop_some_ex T1 rounds1 0 cid hres
      have hrr := List.all_eq_true.mp h1 r hr
      rw [decide_eq_true he] at hrr
      rcases (Bool.or_eq_true _ _).mp hrr with hx | hx
      · cases hx
      · have hun := List.all_eq_true.mp hx u hu
        simp only [isStartEvent, hm, hstrip, beq_self_eq_true] at hun
        cases hun
  · rcases Bool.eq_false_or_eq_true (wait_for_pairing_code rounds2 chat code T2).result
      with hres | hres
    · exfalso
      obtain ⟨r, hr, he, u, hu, m, hm, hchat, hstrip⟩ :=
        pairLoop_true_ex chat code T2 rounds2 0 hres
      have hrr := List.all_eq_true.mp h2 r hr
      rw [decide_eq_true he] at hrr
      rcases (Bool.or_eq_true _ _).mp hrr with hx | hx
      · cases hx
      · have hun := List.all_eq_true.mp hx u hu
        simp only [isPairEvent, hm, hchat, hstrip, beq_self_eq_true,
          Bool.and_self] at hun
        cases hun
    · exact hres

/-- Witness for C9: a pre-deadline non-matching event plus a matching
event arriving only after the deadline yield the timeout outcome. -/
theorem phase_timeout_behavior_witness :
    (wait_for_start_command
        [⟨0, .ok [⟨1, some ⟨777, some "hello", none⟩⟩]⟩,
          ⟨400, .ok [⟨2, some ⟨777, some "/start", none⟩⟩]⟩] 300).result = none :=
  (phase_timeout_behavior
    [⟨0, .ok [⟨1, some ⟨777, some "hello", none⟩⟩]⟩,
      ⟨400, .ok [⟨2, some ⟨777, some "/start", none⟩⟩]⟩]
    [⟨0, .ok [⟨1, some ⟨777, some "111111", none⟩⟩]⟩,
      ⟨400, .ok [⟨2, some ⟨777, some "482913", none⟩⟩]⟩]
    "777" "482913" 300 300 (by decide) (by decide)).1

/-- Claim C10 (corrected), counterexample: an event from the bound chat
whose raw text " 482913" is neither the issued code "482913" nor
command-marker-prefixed nevertheless terminates the verify phase with
`True`, because the text is stripped before comparison; the claim's
skip-and-continue guarantee for such events does not hold on raw text. -/
theorem pairing_terminates_on_padded_code :
    (wait_for_pairing_code [⟨0, .ok [⟨1, some ⟨777, some " 482913", none⟩⟩]⟩]
        "777" "482913" 300).result = true ∧
      (" 482913" : String) ≠ "482913" ∧
      pyStartsWith " 482913" "/" = false := by
  refine ⟨by decide, by decide, by decide⟩

/-- Claim C10 (corrected, amended form): a candidate whose stripped text
mismatches the code never ends the verify phase early: whenever the phase
returns `False`, it has polled exactly the rounds whose elapsed clock was
below the deadline — `False` arises only from deadline exhaustion, never
from a wrong candidate. -/
theorem wrong_code_never_ends_challenge (rounds : List Round)
    (chat code : String) (T : Nat)
    (h : (wait_for_pairing_code rounds chat code T).result = false) :
    (wait_for_pairing_code rounds chat code T).polled.length =
      (rounds.takeWhile (fun r => decide (r.elapsed < T))).length :=
  pairLoop_false_polled_all chat code T rounds 0 h

/-- Witness for the amended C10 theorem: a run fed a wrong candidate and a
command polls every pre-deadline round and times out. -/
theorem wrong_code_never_ends_challenge_witness :
    (wait_for_pairing_code
        ([⟨0, .ok [⟨1, some ⟨777, some "999999", none⟩⟩]⟩,
          ⟨2, .ok [⟨2, some ⟨777, some "/help", none⟩⟩]⟩,
          ⟨400, .ok [⟨3, some ⟨777, some "482913", none⟩⟩]⟩] : List Round)
        "777" "482913" 300).polled.length =
      (([⟨0, .ok [⟨1, some ⟨777, some "999999", none⟩⟩]⟩,
          ⟨2, .ok [⟨2, some ⟨777, some "/help", none⟩⟩]⟩,
          ⟨400, .ok [⟨3, some ⟨777, some "482913", none⟩⟩]⟩] :
        List Round).takeWhile (fun r => decide (r.elapsed < 300))).length :=
  wrong_code_never_ends_challenge
    [⟨0, .ok [⟨1, some ⟨777, some "999999", none⟩⟩]⟩,
      ⟨2, .ok [⟨2, some ⟨777, some "/help", none⟩⟩]⟩,
      ⟨400, .ok [⟨3, some ⟨777, some "482913", none⟩⟩]⟩]
    "777" "482913" 300 (by decide)
